import Mathlib

/-!
Verification of the multi-file WGSL front-end driver: the file registry
(`File`, line-start tables), the span/slicing machinery (`source_at`), the
iterative import-graph resolver (`parse_translation_unit`) and the pipeline
orchestration (`parse_module`).

Shallow embedding conventions:
* Rust `usize`/`u32` values are modelled as `Nat` (no arithmetic here comes
  near an overflow boundary, and all quantities are indices or counts).
* Rust `String`/`&str` source text is modelled as `List Char`, one list entry
  per byte offset (multi-byte UTF-8 boundaries are not modelled; every claim
  speaks of byte offsets uniformly).
* Fallible Rust functions returning `Result`/`Option` become `Except`/`Option`;
  a Rust panic (`expect`, `todo!`, out-of-bounds slice indexing) is a
  distinguished `panicked` constructor of an explicit result type.
* `std::path::PathBuf` is modelled as a list of components (`List String`).
-/

set_option maxHeartbeats 1600000

namespace Wgslx

/-- `pub type FileId = u32;` (source_provider.rs). Modelled as `Nat`. -/
abbrev FileId := Nat

/-- `crate::Span` (outside `src/`). Modelled from the spec:
`Span: { start: byte offset, end: byte offset, file_id: optional FileId }`.
The `end` field is renamed `stop` because `end` is a Lean keyword. -/
structure Span where
  start : Nat
  stop : Nat
  file_id : Option FileId
deriving DecidableEq

/-- `Span::new(start, end, file_id)` as used at mod.rs:172. -/
def Span.new (start stop : Nat) (file_id : Option FileId) : Span :=
  ⟨start, stop, file_id⟩

/-- `codespan_reporting::files::Error`; only the `LineTooLarge` variant is
produced by the code under `src/`. -/
inductive FilesError where
  | lineTooLarge (given : Nat) (max : Nat)
deriving DecidableEq

/-- `codespan_reporting::files::line_starts(source)`:
`std::iter::once(0).chain(source.match_indices('\n').map(|(i, _)| i + 1))`.
The byte indices `i` with `source[i] = '\n'` are exactly the elements of
`(List.range source.length).filter _`, in increasing order. -/
def line_starts (source : List Char) : List Nat :=
  0 :: ((List.range source.length).filter
          (fun i => source.getD i ' ' = '\n')).map (· + 1)

/-- `File` (source_provider.rs / mod.rs): id, path, source text, display name,
and the precomputed line-start table. -/
structure File where
  id : FileId
  path : List String
  source : List Char
  name : String
  line_starts : List Nat
deriving DecidableEq

/-- `path.to_string_lossy().to_string()` (display name of the file). -/
def pathName (path : List String) : String :=
  String.intercalate "/" path

/-- `File::new(id, path, source)`: stores the path's display name and the
line-start table computed by `line_starts`. -/
def File.new (id : FileId) (path : List String) (source : List Char) : File :=
  { id := id
    path := path
    source := source
    name := pathName path
    line_starts := Wgslx.line_starts source }

/-- `File::line_start(line_index)`: `line_starts[line_index]` when
`line_index < line_starts.len()`, `source.len()` when equal, and
`Error::LineTooLarge` when greater (mirroring the `Ordering` match).
The `expect` in the `Less` arm cannot fire (the index was just checked),
so it is rendered with `getD`. -/
def File.line_start (f : File) (line_index : Nat) : Except FilesError Nat :=
  if line_index < f.line_starts.length then
    .ok (f.line_starts.getD line_index 0)
  else if line_index = f.line_starts.length then
    .ok f.source.length
  else
    .error (.lineTooLarge line_index (f.line_starts.length - 1))

/-- Rust `slice::binary_search` on the (strictly sorted) `line_starts` table,
modelled by its documented contract: `Ok(i)` with `xs[i] = x` when `x` occurs
in the slice, otherwise `Err(insertion_point)` where the insertion point is
the number of elements smaller than `x`.  For a strictly sorted slice both
answers are uniquely determined, so this is the exact behaviour of the
standard-library search. -/
def binary_search (xs : List Nat) (x : Nat) : Except Nat Nat :=
  if x ∈ xs then .ok (xs.indexOf x)
  else .error (xs.countP (fun y => decide (y < x)))

/-- `File::line_index(&self, (), byte_index)`:
`self.line_starts.binary_search(&byte_index).unwrap_or_else(|next| next - 1)`.
(The subtraction is `Nat` truncated; `next = 0` is impossible for files built
by `File::new` since `line_starts` always contains `0`.) -/
def File.line_index (f : File) (_u : Unit) (byte_index : Nat) :
    Except FilesError Nat :=
  .ok (match binary_search f.line_starts byte_index with
       | .ok i => i
       | .error next_line => next_line - 1)

/-- `File::line_range(&self, (), line_index)`:
`line_start(line_index)? .. line_start(line_index + 1)?`. -/
def File.line_range (f : File) (_u : Unit) (line_index : Nat) :
    Except FilesError (Nat × Nat) := do
  let line_start ← f.line_start line_index
  let next_line_start ← f.line_start (line_index + 1)
  return (line_start, next_line_start)

/-! ### Basic facts about `line_starts` -/

theorem line_starts_sorted (source : List Char) :
    List.Pairwise (· < ·) (line_starts source) := by
  unfold line_starts
  refine List.Pairwise.cons ?_ ?_
  · intro b hb
    rcases List.mem_map.mp hb with ⟨i, _, rfl⟩
    omega
  · rw [List.pairwise_map]
    exact ((List.pairwise_lt_range source.length).filter _).imp (by omega)

theorem line_starts_le_length (source : List Char) :
    ∀ x ∈ line_starts source, x ≤ source.length := by
  intro x hx
  unfold line_starts at hx
  rcases List.mem_cons.mp hx with rfl | hx
  · omega
  · rcases List.mem_map.mp hx with ⟨i, hi, rfl⟩
    have := List.mem_range.mp (List.mem_of_mem_filter hi)
    omega

theorem line_starts_zero_mem (source : List Char) : 0 ∈ line_starts source := by
  unfold line_starts; exact List.mem_cons_self _ _

theorem line_starts_ne_nil (source : List Char) : line_starts source ≠ [] := by
  unfold line_starts; simp

/-- In a strictly sorted list, the entry at position `j` is below `x` exactly
when `j` is below the number of entries below `x` (the insertion point). -/
theorem sorted_getD_lt_iff_countP (x : Nat) :
    ∀ (xs : List Nat), List.Pairwise (· < ·) xs →
      ∀ j, j < xs.length →
        (xs.getD j 0 < x ↔ j < xs.countP (fun y => decide (y < x))) := by
  intro xs
  induction xs with
  | nil => intro _ j hj; simp at hj
  | cons a tl ih =>
    intro hp j hj
    have ha := List.pairwise_cons.mp hp
    rw [List.countP_cons]
    simp only [decide_eq_true_eq]
    by_cases hax : a < x
    · rw [if_pos hax]
      cases j with
      | zero =>
        simp only [List.getD_cons_zero]
        constructor
        · intro _; omega
        · intro _; exact hax
      | succ j =>
        have hj' : j < tl.length := by simpa using hj
        have hiff := ih ha.2 j hj'
        simp only [List.getD_cons_succ]
        constructor
        · intro h; exact Nat.succ_lt_succ (hiff.mp h)
        · intro h; exact hiff.mpr (Nat.lt_of_succ_lt_succ h)
    · rw [if_neg hax]
      have htl : tl.countP (fun y => decide (y < x)) = 0 := by
        refine List.countP_eq_zero.mpr ?_
        intro y hy
        have := ha.1 y hy
        simp only [decide_eq_true_eq]
        omega
      cases j with
      | zero =>
        simp only [List.getD_cons_zero, htl]
        constructor
        · intro h; exact absurd h hax
        · intro h; omega
      | succ j =>
        have hj' : j < tl.length := by simpa using hj
        have hmem : tl.getD j 0 ∈ tl := by
          rw [List.getD_eq_getElem _ _ hj']
          exact List.getElem_mem hj'
        have hgt := ha.1 _ hmem
        simp only [List.getD_cons_succ, htl]
        constructor <;> (intro h; omega)

/-- `binary_search` run on a strictly sorted list at one of its own entries
finds that entry's index. -/
theorem binary_search_getD (xs : List Nat) (hp : List.Pairwise (· < ·) xs)
    (i : Nat) (hi : i < xs.length) :
    binary_search xs (xs.getD i 0) = .ok i := by
  have hnd : xs.Nodup := hp.imp Nat.ne_of_lt
  have hmem : xs.getD i 0 ∈ xs := by
    rw [List.getD_eq_getElem _ _ hi]
    exact List.getElem_mem hi
  unfold binary_search
  rw [if_pos hmem]
  congr 1
  rw [List.getD_eq_getElem _ _ hi]
  exact List.indexOf_getElem hnd i hi

theorem File.new_line_starts (id : FileId) (path : List String)
    (source : List Char) :
    (File.new id path source).line_starts = Wgslx.line_starts source := rfl

/-! ### Claim C5: `File::line_range` -/

/-- C5 (amended): `line_range(i)` succeeds exactly for
`i < line_starts.length`, returning the half-open range from
`line_starts[i]` to `line_starts[i+1]` (or `len(source)` when `i+1` is the
table length); for `i ≥ line_starts.length` it fails with the line-too-large
error (raised by the `line_start(i+1)` call when `i` equals the length, and
by the `line_start(i)` call beyond). -/
theorem line_range_characterization (f : File) (i : Nat) :
    (i < f.line_starts.length →
      f.line_range () i = .ok (f.line_starts.getD i 0,
        if i + 1 < f.line_starts.length then f.line_starts.getD (i + 1) 0
        else f.source.length)) ∧
    (f.line_starts.length ≤ i →
      f.line_range () i =
        .error (.lineTooLarge (if i = f.line_starts.length then i + 1 else i)
          (f.line_starts.length - 1))) := by
  unfold File.line_range File.line_start
  constructor
  · intro h
    by_cases h2 : i + 1 < f.line_starts.length
    · simp [h, h2, Bind.bind, Except.bind, Pure.pure, Except.pure]
    · have h3 : i + 1 = f.line_starts.length := by omega
      simp [h, h2, h3, Bind.bind, Except.bind, Pure.pure, Except.pure]
  · intro h
    by_cases he : i = f.line_starts.length
    · have h1 : ¬ i + 1 < f.line_starts.length := by omega
      have h2 : ¬ i + 1 = f.line_starts.length := by omega
      simp [he, h1, h2, Bind.bind, Except.bind]
    · have h3 : ¬ i < f.line_starts.length := by omega
      simp [h3, he, Bind.bind, Except.bind]

/-- C5 witness: the characterization applied to the concrete file `"a\nb"`
(line-start table `[0, 2]`): line 0 spans bytes 0..2. -/
theorem line_range_characterization_app :
    (File.new 0 ["m"] "a\nb".toList).line_range () 0 = .ok (0, 2) := by
  have h := (line_range_characterization (File.new 0 ["m"] "a\nb".toList) 0).1
    (by decide)
  simpa using h

/-- C5 counterexample: for the file `"a\nb"` the line-start table has length
2, yet `line_range(2)` fails with `LineTooLarge` — refuting the claim that
every `line_index ≤ line_starts.length` succeeds. -/
theorem line_range_at_length_errors :
    2 ≤ (File.new 0 ["m"] "a\nb".toList).line_starts.length ∧
    (File.new 0 ["m"] "a\nb".toList).line_range () 2 =
      .error (.lineTooLarge 3 1) := by
  exact ⟨by decide, rfl⟩

/-! ### Claim C6: `File::line_index` -/

/-- C6: for every file built by `File::new`, `line_index(byte_index)` returns
(without error) the greatest index `i` with `line_starts[i] ≤ byte_index`. -/
theorem line_index_greatest (id : FileId) (path : List String)
    (source : List Char) (byte_index : Nat) :
    ∃ i, (File.new id path source).line_index () byte_index = .ok i ∧
      i < (line_starts source).length ∧
      (line_starts source).getD i 0 ≤ byte_index ∧
      ∀ j, j < (line_starts source).length →
        (line_starts source).getD j 0 ≤ byte_index → j ≤ i := by
  have hp := line_starts_sorted source
  have hnd : (line_starts source).Nodup := hp.imp Nat.ne_of_lt
  by_cases hx : byte_index ∈ line_starts source
  · refine ⟨(line_starts source).indexOf byte_index, ?_, ?_, ?_, ?_⟩
    · show Except.ok _ = _
      unfold binary_search
      simp only [File.new_line_starts]
      rw [if_pos hx]
    · exact List.indexOf_lt_length.mpr hx
    · rw [List.getD_eq_getElem _ _ (List.indexOf_lt_length.mpr hx),
        List.getElem_indexOf (List.indexOf_lt_length.mpr hx)]
    · intro j hj hle
      by_contra hgt
      push_neg at hgt
      have hlt := List.pairwise_iff_get.mp hp
        ⟨_, List.indexOf_lt_length.mpr hx⟩ ⟨j, hj⟩ hgt
      simp only [List.get_eq_getElem, List.getElem_indexOf] at hlt
      rw [List.getD_eq_getElem _ _ hj] at hle
      omega
  · have hk1 : 0 < (line_starts source).countP (fun y => decide (y < byte_index)) := by
      refine List.countP_pos_iff.mpr ⟨0, line_starts_zero_mem source, ?_⟩
      simp only [decide_eq_true_eq]
      rcases Nat.eq_zero_or_pos byte_index with h0 | h0
      · exact absurd (h0 ▸ line_starts_zero_mem source) hx
      · exact h0
    have hk2 := List.countP_le_length
      (p := fun y => decide (y < byte_index)) (l := line_starts source)
    set k := (line_starts source).countP (fun y => decide (y < byte_index)) with hkdef
    refine ⟨k - 1, ?_, by omega, ?_, ?_⟩
    · show Except.ok _ = _
      unfold binary_search
      simp only [File.new_line_starts]
      rw [if_neg hx]
    · have := (sorted_getD_lt_iff_countP byte_index _ hp (k - 1) (by omega)).mpr
        (by omega)
      omega
    · intro j hj hle
      have hmem : (line_starts source).getD j 0 ∈ line_starts source := by
        rw [List.getD_eq_getElem _ _ hj]
        exact List.getElem_mem hj
      have hne : (line_starts source).getD j 0 ≠ byte_index := by
        intro he; exact hx (he ▸ hmem)
      have hlt : (line_starts source).getD j 0 < byte_index := by omega
      have := (sorted_getD_lt_iff_countP byte_index _ hp j hj).mp hlt
      omega

/-- C6 witness: the file `"ab\ncd\n"` has line starts `[0, 3, 6]`; byte 100
(past end of file) lands on the last line, index 2. -/
theorem line_index_greatest_app :
    ∃ i, (File.new 0 ["m"] "ab\ncd\n".toList).line_index () 100 = .ok i ∧
      i < (line_starts "ab\ncd\n".toList).length ∧
      (line_starts "ab\ncd\n".toList).getD i 0 ≤ 100 ∧
      ∀ j, j < (line_starts "ab\ncd\n".toList).length →
        (line_starts "ab\ncd\n".toList).getD j 0 ≤ 100 → j ≤ i :=
  line_index_greatest 0 ["m"] "ab\ncd\n".toList 100

/-! ### Claim C7: invariants of `File::new`'s line-start table -/

/-- C7: for every file built by `File::new`: the table starts with 0, is
strictly increasing, stays within `len(source)`, and
`line_index(line_starts[i]) = i` for every valid `i`. -/
theorem file_new_line_starts_invariants (id : FileId) (path : List String)
    (source : List Char) :
    (File.new id path source).line_starts.head? = some 0 ∧
    List.Pairwise (· < ·) (File.new id path source).line_starts ∧
    (∀ x ∈ (File.new id path source).line_starts, x ≤ source.length) ∧
    ∀ i, i < (File.new id path source).line_starts.length →
      (File.new id path source).line_index ()
        ((File.new id path source).line_starts.getD i 0) = .ok i := by
  refine ⟨rfl, line_starts_sorted source, line_starts_le_length source, ?_⟩
  intro i hi
  show Except.ok _ = _
  simp only [File.new_line_starts] at hi ⊢
  rw [binary_search_getD _ (line_starts_sorted source) i hi]

/-- C7 witness: the invariants instantiated at the file `"x\ny"`, whose
line-start table is `[0, 2]`; in particular `line_index(2) = 1`. -/
theorem file_new_line_starts_invariants_app :
    (File.new 3 ["d", "f"] "x\ny".toList).line_starts.head? = some 0 ∧
    (File.new 3 ["d", "f"] "x\ny".toList).line_index () 2 = .ok 1 := by
  have h := file_new_line_starts_invariants 3 ["d", "f"] "x\ny".toList
  exact ⟨h.1, by
    have := h.2.2.2 1 (by decide)
    simpa using this⟩

/-! ### Source provider and `source_at` -/

/-- Result of a Rust computation that may panic (`expect`, `todo!`,
out-of-bounds slice indexing). -/
inductive Panics (α : Type) where
  | value (a : α)
  | panicked
deriving DecidableEq

/-- A `SourceProvider` (trait in mod.rs and source_provider.rs), modelled as
the finite registry of files it can serve. The concrete provider may register
files lazily from a file system; a single resolution pass only ever observes
the fixed, finite file-set underneath it. -/
structure Provider where
  files : List File
deriving DecidableEq

/-- `SourceProvider::get(id)`: the registered file with that identity. -/
def Provider.get (prov : Provider) (id : FileId) : Option File :=
  prov.files.find? (fun f => f.id == id)

/-- `SourceProvider::visit(path)`: the identity of the file at `path`
(registering it if new), or `None` when the path cannot be located. -/
def Provider.visit (prov : Provider) (path : List String) : Option FileId :=
  (prov.files.find? (fun f => f.path == path)).map File.id

/-- `SourceProvider::source_at(span)`:
`Some(&self.get(span.file_id?)?.source.as_str()[span])`.
The `?` early-outs return `None`; the string indexing itself (the
`Index<Span> for str` impl lives outside `src/`) is modelled from the spec:
a span slices the owning file's text by its half-open byte range
`start..end`, and Rust range indexing of a string panics when the range is
out of the string's bounds. -/
def Provider.source_at (prov : Provider) (span : Span) :
    Panics (Option (List Char)) :=
  match span.file_id with
  | none => .value none
  | some id =>
    match prov.get id with
    | none => .value none
    | some file =>
      if span.start ≤ span.stop ∧ span.stop ≤ file.source.length then
        .value (some ((file.source.drop span.start).take (span.stop - span.start)))
      else .panicked

/-! ### AST, parser interface, and the import-graph resolver -/

/-- A top-level declaration; the driver only concatenates declaration lists,
so its internal structure is opaque (a tag suffices). -/
abbrev Decl := String

/-- `crate::Module`, the lowered IR (produced outside the verified core):
opaque. -/
abbrev Module := String

/-- `index::Index`, the name-resolution artifact (produced outside the
verified core): opaque. -/
abbrev Index := String

/-- An import directive as it sits in `TranslationUnit::imports`
(`ast::Import`, outside `src/`). Modelled from the spec:
`{ raw_path_token, span }` plus the `resolved_path` the resolver attaches in
place once resolution succeeds. -/
structure ImportDirective where
  raw : String
  span : Span
  resolved_path : Option (List String)
deriving DecidableEq

/-- An import directive as freshly produced by the parser: raw path token and
span, no resolved path attached yet. -/
structure RawImport where
  raw : String
  span : Span
deriving DecidableEq

/-- `Import::resolve(parent_path)` (`ast`, outside `src/`). Modelled from the
spec: resolves the raw path against the parent directory of the current
file's path and mutates the directive in place to attach the resolved path
once resolution succeeds; a directive that already carries a resolved path
keeps it. -/
def ImportDirective.resolve (d : ImportDirective) (parent_path : List String) :
    List String × ImportDirective :=
  match d.resolved_path with
  | some p => (p, d)
  | none =>
    let p := parent_path ++ [d.raw]
    (p, { d with resolved_path := some p })

/-- `std::path::Path::parent`: drop the last component; `None` when there is
nothing to drop. -/
def Path.parent (p : List String) : Option (List String) :=
  if p.isEmpty then none else some p.dropLast

/-- `ast::TranslationUnit` (outside `src/`). Modelled from the spec: shared
declarations and one shared `imports` sequence accumulated across all visited
files, plus transient per-file scratch state that is reset before each file
is folded in; the scratch part is modelled as the id of the file currently
being parsed. -/
structure TranslationUnit where
  decls : List Decl
  imports : List ImportDirective
  scratch : Option FileId
deriving DecidableEq

/-- `ast::TranslationUnit::default()`. -/
def TranslationUnit.default : TranslationUnit := ⟨[], [], none⟩

/-- `TranslationUnit::reset`: clears only the transient per-file scratch
state, keeping the accumulated declarations and imports. -/
def TranslationUnit.reset (u : TranslationUnit) : TranslationUnit :=
  { u with scratch := none }

/-- `Error` (error.rs, outside `src/`): the internal error type. Only
`BadPath { span }` is constructed by the code under `src/`; every other
stage's errors are modelled by an opaque tagged variant. -/
inductive WgslError where
  | badPath (span : Span)
  | stageError (tag : String) (span : Span)
deriving DecidableEq

/-- `ParseError` (error.rs, outside `src/`): the user-facing diagnostic.
Modelled from the spec: rendering resolves the span against the registry but
preserves the underlying error, which the model keeps as the payload. -/
structure ParseError where
  error : WgslError
deriving DecidableEq

/-- `Error::as_parse_error(provider)` (error.rs, outside `src/`). Modelled
from the spec: attaches file/line context for rendering; the provider is only
read and the underlying error survives unchanged. -/
def WgslError.as_parse_error (e : WgslError) (_prov : Provider) : ParseError :=
  ⟨e⟩

/-- The recursive-descent `Parser` (`parse/`, outside the verified core): a
function from a file's id and source text to the declarations and raw import
directives found there, or an internal error. -/
abbrev ParserFn := FileId → List Char → Except WgslError (List Decl × List RawImport)

/-- `Frontend { parser: Parser }`; `Frontend::new()` constructs the external
recursive-descent parser, which the model threads as a value. -/
structure Frontend where
  parser : ParserFn

/-- `Frontend::new()`. -/
def Frontend.new (P : ParserFn) : Frontend := ⟨P⟩

/-- `Frontend::parse(source)`: the body is `todo!()` — it panics
unconditionally on every input. -/
def Frontend.parse (_fe : Frontend) (_source : List Char) :
    Panics (Except ParseError Module) := .panicked

/-- `parse_str(source)` (mod.rs:161): the body is `todo!()` — it panics
unconditionally on every input. -/
def parse_str (_source : List Char) : Panics (Except ParseError Module) :=
  .panicked

/-- `Frontend::parse_into(unit, file)`: `self.parser.parse(unit, source, id)`
appends the declarations and (unresolved) import directives found in the
file's source to the unit and marks the unit's scratch state with the file. -/
def Frontend.parse_into (fe : Frontend) (unit : TranslationUnit) (file : File) :
    Except WgslError TranslationUnit :=
  match fe.parser file.id file.source with
  | .error e => .error e
  | .ok (ds, imps) =>
    .ok { decls := unit.decls ++ ds
          imports := unit.imports ++ imps.map (fun r => ⟨r.raw, r.span, none⟩)
          scratch := some file.id }

/-- The body of `parse_translation_unit`'s
`for import in &mut translation_unit.imports` loop: resolve each directive
against the current file's parent directory (mutating it in place), skip
resolved paths already in `handled`, and for a fresh path ask the provider
for a file id — failure aborts with `BadPath { span }` where `span` is the
span with which the *current file* was popped — then push
`(file_id, import.span)` and insert the path into `handled`. The stack is a
list whose head is its top. -/
def processImports (prov : Provider) (parent_path : List String) (span : Span) :
    List ImportDirective → List (List String) → List (FileId × Span) →
    Except ParseError
      (List ImportDirective × List (List String) × List (FileId × Span))
  | [], handled, stack => .ok ([], handled, stack)
  | d :: rest, handled, stack =>
    if (d.resolve parent_path).1 ∈ handled then
      match processImports prov parent_path span rest handled stack with
      | .error e => .error e
      | .ok (ds, hs, ss) => .ok ((d.resolve parent_path).2 :: ds, hs, ss)
    else
      match prov.visit (d.resolve parent_path).1 with
      | none => .error ((WgslError.badPath span).as_parse_error prov)
      | some file_id =>
        match processImports prov parent_path span rest
            ((d.resolve parent_path).1 :: handled)
            ((file_id, (d.resolve parent_path).2.span) :: stack) with
        | .error e => .error e
        | .ok (ds, hs, ss) => .ok ((d.resolve parent_path).2 :: ds, hs, ss)

/-- Successful `processImports` grows `handled` only by fresh paths of
provider files, exactly one stack push per new path. -/
theorem processImports_growth (prov : Provider) (parent_path : List String)
    (span : Span) :
    ∀ imps handled stack imps' handled' stack',
      processImports prov parent_path span imps handled stack =
        .ok (imps', handled', stack') →
      ∃ news, handled' = news ++ handled ∧ news.Nodup ∧
        stack'.length = news.length + stack.length ∧
        ∀ p ∈ news, p ∉ handled ∧ ∃ f ∈ prov.files, f.path = p := by
  intro imps
  induction imps with
  | nil =>
    intro handled stack imps' handled' stack' h
    refine ⟨[], ?_⟩
    unfold processImports at h
    injection h with h
    injection h with h1 h
    injection h with h2 h3
    subst h2; subst h3
    simp
  | cons d rest ih =>
    intro handled stack imps' handled' stack' h
    unfold processImports at h
    by_cases hmem : (d.resolve parent_path).1 ∈ handled
    · rw [if_pos hmem] at h
      split at h
      · exact absurd h (by simp)
      next ds hs ss hrec =>
        injection h with h
        injection h with h1 h
        injection h with h2 h3
        subst h2; subst h3
        exact ih handled stack ds hs ss hrec
    · rw [if_neg hmem] at h
      split at h
      · exact absurd h (by simp)
      next fid hv =>
        split at h
        · exact absurd h (by simp)
        next ds hs ss hrec =>
          injection h with h
          injection h with h1 h
          injection h with h2 h3
          subst h2; subst h3
          rcases ih _ _ _ _ _ hrec with ⟨news, hh, hnd, hlen, hfr⟩
          refine ⟨news ++ [(d.resolve parent_path).1], ?_, ?_, ?_, ?_⟩
          · rw [hh]; simp
          · refine List.Nodup.append hnd (List.nodup_singleton _) ?_
            intro a ha hb
            rcases List.mem_singleton.mp hb with rfl
            exact ((hfr _ ha).1) (List.mem_cons_self _ _)
          · simp at hlen ⊢; omega
          · intro p hp
            rcases List.mem_append.mp hp with hp | hp
            · have := hfr p hp
              refine ⟨fun hc => this.1 (List.mem_cons_of_mem _ hc), this.2⟩
            · rcases List.mem_singleton.mp hp with rfl
              refine ⟨hmem, ?_⟩
              unfold Provider.visit at hv
              rcases hf : prov.files.find? (fun f => f.path == (d.resolve parent_path).1) with _ | f
              · rw [hf] at hv; exact absurd hv (by simp)
              · refine ⟨f, List.mem_of_find?_eq_some hf, ?_⟩
                have := List.find?_some hf
                simpa using this

/-- Termination measure of the work-stack loop: twice the number of provider
paths not yet handled, plus the stack height. Each loop iteration pops one
entry and pushes one entry per newly handled provider path, so the measure
strictly decreases. -/
def loopMeasure (prov : Provider) (handled : List (List String))
    (stack : List (FileId × Span)) : Nat :=
  2 * ((prov.files.map File.path).filter (fun p => decide (p ∉ handled))).length
    + stack.length

theorem processImports_measure (prov : Provider) (parent_path : List String)
    (span : Span) (imps : List ImportDirective) (handled : List (List String))
    (stack : List (FileId × Span)) (imps' : List ImportDirective)
    (handled' : List (List String)) (stack' : List (FileId × Span))
    (h : processImports prov parent_path span imps handled stack =
      .ok (imps', handled', stack')) (fs : FileId × Span) :
    loopMeasure prov handled' stack' < loopMeasure prov handled (fs :: stack) := by
  rcases processImports_growth prov parent_path span imps handled stack
    imps' handled' stack' h with ⟨news, hh, hnd, hlen, hfr⟩
  subst hh
  unfold loopMeasure
  have hsplit : ∀ a : List String,
      decide (a ∉ news ++ handled) =
        (decide (a ∉ news) && decide (a ∉ handled)) := by
    intro a
    rw [← Bool.decide_and]
    apply decide_eq_decide.mpr
    simp [List.mem_append]
  have e1 : (prov.files.map File.path).filter
        (fun p => decide (p ∉ news ++ handled)) =
      ((prov.files.map File.path).filter (fun p => decide (p ∉ handled))).filter
        (fun p => decide (p ∉ news)) := by
    rw [List.filter_filter]
    exact List.filter_congr (fun a _ => hsplit a)
  have e2 := List.length_eq_length_filter_add
    (l := (prov.files.map File.path).filter (fun p => decide (p ∉ handled)))
    (fun p => decide (p ∉ news))
  have e3 : news.length ≤
      (((prov.files.map File.path).filter (fun p => decide (p ∉ handled))).filter
        (fun p => !decide (p ∉ news))).length := by
    refine List.Subperm.length_le (List.Nodup.subperm hnd ?_)
    intro p hp
    rcases hfr p hp with ⟨hph, f, hf, rfl⟩
    refine List.mem_filter.mpr ⟨List.mem_filter.mpr ⟨List.mem_map_of_mem _ hf, ?_⟩, ?_⟩
    · simpa using hph
    · simpa using hp
  rw [e1]
  simp only [List.length_cons] at *
  omega

deriving instance DecidableEq for Except

/-- Outcome-plus-trace of one resolution pass. `trace` records, in order, the
id of each file handed to the parser (one entry per `parse_into` invocation —
the observation the at-most-once-parsing claims are about); `outcome` is the
Rust return value, or `panicked` when the registry `expect` fires. -/
structure ResolveRun where
  outcome : Panics (Except ParseError TranslationUnit)
  trace : List FileId
deriving DecidableEq

/-- The `while let Some((file_id, span)) = stack.pop()` loop of
`parse_translation_unit` (mod.rs:176-206): reset the unit's transient state,
fetch the file (the `expect` panics when the provider does not know the id),
parse it into the shared unit, take the parent directory of its path
(`BadPath { span }` when absent), then run the import loop and continue on
the grown stack. -/
def runLoop (prov : Provider) (P : ParserFn) :
    TranslationUnit → List (List String) → List (FileId × Span) → List FileId →
    ResolveRun
  | unit, _handled, [], trace => ⟨.value (.ok unit), trace⟩
  | unit, handled, (file_id, span) :: stack, trace =>
    match prov.get file_id with
    | none => ⟨.panicked, trace⟩
    | some file =>
      match (Frontend.new P).parse_into unit.reset file with
      | .error e => ⟨.value (.error (e.as_parse_error prov)), trace ++ [file_id]⟩
      | .ok unit' =>
        match Path.parent file.path with
        | none =>
          ⟨.value (.error ((WgslError.badPath span).as_parse_error prov)),
            trace ++ [file_id]⟩
        | some parent_path =>
          match hpi : processImports prov parent_path span unit'.imports
              handled stack with
          | .error pe => ⟨.value (.error pe), trace ++ [file_id]⟩
          | .ok (imps', handled', stack') =>
            runLoop prov P { unit' with imports := imps' } handled' stack'
              (trace ++ [file_id])
termination_by unit handled stack trace => loopMeasure prov handled stack
decreasing_by
  exact processImports_measure prov parent_path span unit'.imports handled stack
    imps' handled' stack' hpi (file_id, span)

/-- Fuel-indexed unfolding of `runLoop`: performs exactly the same steps but
gives up (returns `none`) when the fuel runs out before the stack empties.
`runLoop_eq_runLoopF` shows `loopMeasure` fuel always suffices — the
work-stack loop finishes within a number of iterations bounded by the
provider's size — and makes concrete runs of the loop computable. -/
def runLoopF (prov : Provider) (P : ParserFn) :
    Nat → TranslationUnit → List (List String) → List (FileId × Span) →
    List FileId → Option ResolveRun
  | _, unit, _handled, [], trace => some ⟨.value (.ok unit), trace⟩
  | 0, _, _, _ :: _, _ => none
  | fuel+1, unit, handled, (file_id, span) :: stack, trace =>
    match prov.get file_id with
    | none => some ⟨.panicked, trace⟩
    | some file =>
      match (Frontend.new P).parse_into unit.reset file with
      | .error e =>
        some ⟨.value (.error (e.as_parse_error prov)), trace ++ [file_id]⟩
      | .ok unit' =>
        match Path.parent file.path with
        | none =>
          some ⟨.value (.error ((WgslError.badPath span).as_parse_error prov)),
            trace ++ [file_id]⟩
        | some parent_path =>
          match processImports prov parent_path span unit'.imports
              handled stack with
          | .error pe => some ⟨.value (.error pe), trace ++ [file_id]⟩
          | .ok (imps', handled', stack') =>
            runLoopF prov P fuel { unit' with imports := imps' } handled'
              stack' (trace ++ [file_id])

/-- The loop always terminates within `loopMeasure` iterations: with that
much fuel the fuel-indexed unfolding never gives up and agrees with
`runLoop`. -/
theorem runLoop_eq_runLoopF (prov : Provider) (P : ParserFn) :
    ∀ (fuel : Nat) (unit : TranslationUnit) (handled : List (List String))
      (stack : List (FileId × Span)) (trace : List FileId),
      loopMeasure prov handled stack ≤ fuel →
      runLoopF prov P fuel unit handled stack trace =
        some (runLoop prov P unit handled stack trace) := by
  intro fuel
  induction fuel with
  | zero =>
    intro unit handled stack trace hm
    cases stack with
    | nil => simp only [runLoopF, runLoop]
    | cons hd tl =>
      exfalso
      simp only [loopMeasure, List.length_cons] at hm
      omega
  | succ fuel ih =>
    intro unit handled stack trace hm
    cases stack with
    | nil => simp only [runLoopF, runLoop]
    | cons hd tl =>
      obtain ⟨file_id, span⟩ := hd
      simp only [runLoopF, runLoop]
      split
      · rfl
      · split
        · rfl
        · split
          · rfl
          · split
            · next e1 heq1 =>
                split
                · next pe heq2 =>
                    rw [heq1] at heq2
                    injection heq2 with h'
                    subst h'
                    rfl
                · next imps2 handled2 stack2 heq2 =>
                    rw [heq1] at heq2
                    exact absurd heq2 (by simp)
            · next imps' handled' stack' heq1 =>
                split
                · next pe heq2 =>
                    rw [heq1] at heq2
                    exact absurd heq2 (by simp)
                · next imps2 handled2 stack2 heq2 =>
                    rw [heq1] at heq2
                    injection heq2 with h'
                    injection h' with h1 h'
                    injection h' with h2 h3
                    subst h1; subst h2; subst h3
                    refine ih _ _ _ _ ?_
                    have := processImports_measure prov _ span _
                      handled tl _ _ _ heq1 (file_id, span)
                    omega

/-- `parse_translation_unit(provider, file_id)` (mod.rs:167): seed the work
stack with `(file_id, Span::new(0, 0, None))`, start from an empty `handled`
set and a default unit, and run the loop. -/
def parse_translation_unit (prov : Provider) (P : ParserFn) (file_id : FileId) :
    ResolveRun :=
  runLoop prov P TranslationUnit.default [] [(file_id, Span.new 0 0 none)] []

/-- The `Index::generate` and `Lowerer::new(&index).lower` stages (index.rs /
lower.rs, outside the verified core), threaded as the pipeline's stage
functions. -/
structure Pipeline where
  generate : TranslationUnit → Except WgslError Index
  lower : Index → TranslationUnit → Except WgslError Module

/-- `fn lower(unit)` (mod.rs:146): `Index::generate(unit)?`, then
`Lowerer::new(&index).lower(unit)`. -/
def lower (pl : Pipeline) (unit : TranslationUnit) : Except WgslError Module :=
  match pl.generate unit with
  | .error e => .error e
  | .ok index => pl.lower index unit

/-- `parse_module(provider, id)` (mod.rs:153): parse the merged translation
unit, then lower it, mapping internal errors to `ParseError` via
`as_parse_error`; a panic inside resolution propagates. -/
def parse_module (prov : Provider) (P : ParserFn) (pl : Pipeline)
    (id : FileId) : Panics (Except ParseError Module) :=
  match (parse_translation_unit prov P id).outcome with
  | .panicked => .panicked
  | .value (.error e) => .value (.error e)
  | .value (.ok unit) =>
    match lower pl unit with
    | .error e => .value (.error (e.as_parse_error prov))
    | .ok m => .value (.ok m)

/-- Evaluation principle for concrete resolution runs: a `runLoopF` value
computed with enough fuel is the `runLoop` result. -/
theorem parse_translation_unit_eval (prov : Provider) (P : ParserFn)
    (file_id : FileId) (fuel : Nat) (r : ResolveRun)
    (hfuel : loopMeasure prov [] [(file_id, Span.new 0 0 none)] ≤ fuel)
    (heval : runLoopF prov P fuel TranslationUnit.default []
      [(file_id, Span.new 0 0 none)] [] = some r) :
    parse_translation_unit prov P file_id = r := by
  have hb := runLoop_eq_runLoopF prov P fuel TranslationUnit.default []
    [(file_id, Span.new 0 0 none)] [] hfuel
  rw [heval] at hb
  exact (Option.some.inj hb).symm

/-! ### Concrete import graphs used by the claims -/

/-- Two files forming an import cycle: `a.wgsl` (id 0) imports `b.wgsl`
(id 1), and `b.wgsl` imports `a.wgsl` back. -/
def cycProvider : Provider :=
  ⟨[File.new 0 ["a.wgsl"] "a".toList, File.new 1 ["b.wgsl"] "b".toList]⟩

/-- Parser for the cyclic pair: file 0 declares `declA` and imports
`b.wgsl`; file 1 declares `declB` and imports `a.wgsl`. -/
def cycParser : ParserFn := fun id _src =>
  if id = 0 then .ok (["declA"], [⟨"b.wgsl", Span.new 1 2 (some 0)⟩])
  else .ok (["declB"], [⟨"a.wgsl", Span.new 3 4 (some 1)⟩])

/-- A single registered file whose sole import names a path the provider
cannot locate. -/
def badProvider : Provider := ⟨[File.new 0 ["a.wgsl"] "a".toList]⟩

/-- Parser for `badProvider`: the entry file imports `missing.wgsl`, whose
directive has span 5..9 inside file 0. -/
def badParser : ParserFn := fun _id _src =>
  .ok (["declA"], [⟨"missing.wgsl", Span.new 5 9 (some 0)⟩])

/-- Entry `a.wgsl` (id 0) imports `b.wgsl` (id 1); `b.wgsl` imports a path
the provider cannot locate. -/
def bad2Provider : Provider :=
  ⟨[File.new 0 ["a.wgsl"] "a".toList, File.new 1 ["b.wgsl"] "b".toList]⟩

/-- Parser for `bad2Provider`: the directive importing `b.wgsl` has span
1..2 in file 0; the failing directive has span 7..8 in file 1. -/
def bad2Parser : ParserFn := fun id _src =>
  if id = 0 then .ok (["declA"], [⟨"b.wgsl", Span.new 1 2 (some 0)⟩])
  else .ok (["declB"], [⟨"missing.wgsl", Span.new 7 8 (some id)⟩])

/-! ### Claim C4: termination, and cycle tolerance -/

/-- C4: the work-stack loop terminates on every finite import graph — with
fuel `loopMeasure` (bounded by the provider's size) the fuel-indexed loop
never runs dry, for every provider, parser and start state — and on the
two-file cycle `a.wgsl ↔ b.wgsl` resolution completes with a merged unit
(no `BadPath`, no error at all, despite the cycle). -/
theorem loop_terminates_cycle_tolerant :
    (∀ (prov : Provider) (P : ParserFn) (unit : TranslationUnit)
      (handled : List (List String)) (stack : List (FileId × Span))
      (trace : List FileId) (fuel : Nat),
      loopMeasure prov handled stack ≤ fuel →
      runLoopF prov P fuel unit handled stack trace ≠ none) ∧
    (∃ u, (parse_translation_unit cycProvider cycParser 0).outcome =
      .value (.ok u)) := by
  constructor
  · intro prov P unit handled stack trace fuel hm
    rw [runLoop_eq_runLoopF prov P fuel unit handled stack trace hm]
    simp
  · have he := parse_translation_unit_eval cycProvider cycParser 0 5 _
      (by decide) rfl
    exact ⟨_, by rw [he]⟩

/-- C4 witness: the termination bound applied to the cyclic provider at its
concrete measure (5). -/
theorem loop_terminates_cycle_tolerant_app :
    runLoopF cycProvider cycParser 5 TranslationUnit.default []
      [(0, Span.new 0 0 none)] [] ≠ none :=
  loop_terminates_cycle_tolerant.1 cycProvider cycParser TranslationUnit.default
    [] [(0, Span.new 0 0 none)] [] 5 (by decide)

/-! ### Claim C3: each path parsed at most once? -/

/-- C3 counterexample: in the two-file cycle the entry file is parsed twice
(the parser is invoked on file 0 at positions 0 and 2 of the trace), because
the entry's own path is never inserted into the `handled` set; its
declarations are folded into the merged unit twice. -/
theorem entry_parsed_twice_cex :
    (parse_translation_unit cycProvider cycParser 0).trace = [0, 1, 0] ∧
    ((parse_translation_unit cycProvider cycParser 0).trace.count 0 = 2 ∧
      ∀ u, (parse_translation_unit cycProvider cycParser 0).outcome =
        .value (.ok u) → u.decls = ["declA", "declB", "declA"]) := by
  have he := parse_translation_unit_eval cycProvider cycParser 0 5 _
    (by decide) rfl
  rw [he]
  refine ⟨rfl, rfl, ?_⟩
  intro u hu
  have h := Except.ok.inj (Panics.value.inj hu.symm)
  rw [h]
  rfl

/-! ### Claim C2: `source_at` -/

/-- C2 (amended): `source_at` returns exactly `T[start..end]` when the span
has a file identity the provider knows and the offsets are within bounds;
it returns the `None` error value when the file identity is absent or
unknown; but out-of-bounds offsets on a known file make the string indexing
panic instead of producing an error value. -/
theorem source_at_characterization (prov : Provider) (span : Span) :
    (span.file_id = none → prov.source_at span = .value none) ∧
    (∀ id, span.file_id = some id → prov.get id = none →
      prov.source_at span = .value none) ∧
    (∀ id file, span.file_id = some id → prov.get id = some file →
      span.start ≤ span.stop → span.stop ≤ file.source.length →
      prov.source_at span = .value
        (some ((file.source.drop span.start).take (span.stop - span.start)))) ∧
    (∀ id file, span.file_id = some id → prov.get id = some file →
      ¬ (span.start ≤ span.stop ∧ span.stop ≤ file.source.length) →
      prov.source_at span = .panicked) := by
  refine ⟨?_, ?_, ?_, ?_⟩
  · intro h
    simp only [Provider.source_at, h]
  · intro id h hg
    simp only [Provider.source_at, h, hg]
  · intro id file h hg h1 h2
    simp only [Provider.source_at, h, hg]
    rw [if_pos (And.intro h1 h2)]
  · intro id file h hg hn
    simp only [Provider.source_at, h, hg]
    rw [if_neg hn]

/-- C2 witness: the characterization applied to the in-bounds span 0..1 of
the registered one-byte file `"a"` — the slice is exactly `"a"`. -/
theorem source_at_characterization_app :
    badProvider.source_at ⟨0, 1, some 0⟩ = .value (some ['a']) := by
  have h := (source_at_characterization badProvider ⟨0, 1, some 0⟩).2.2.1 0
    (File.new 0 ["a.wgsl"] "a".toList) rfl rfl (by decide) (by decide)
  exact h

/-- C2 counterexample: for the known file `"a"` (one byte) and the span
0..5 with that file's identity, `source_at` panics (Rust out-of-bounds
string indexing) rather than returning the `None` error value. -/
theorem source_at_oob_panics_cex :
    badProvider.source_at ⟨0, 5, some 0⟩ = .panicked ∧
    ∀ o : Option (List Char), badProvider.source_at ⟨0, 5, some 0⟩ ≠ .value o := by
  refine ⟨rfl, ?_⟩
  intro o h
  rw [show badProvider.source_at ⟨0, 5, some 0⟩ = Panics.panicked from rfl] at h
  exact Panics.noConfusion h

/-! ### Claim C1: which span does `BadPath` carry? -/

theorem resolve_preserves_span (d : ImportDirective) (pp : List String) :
    (d.resolve pp).2.span = d.span := by
  rcases d with ⟨raw, dspan, rp⟩
  cases rp <;> rfl

theorem parse_into_error_inv (P : ParserFn) (u : TranslationUnit) (f : File)
    (e : WgslError) (h : (Frontend.new P).parse_into u f = .error e) :
    P f.id f.source = .error e := by
  unfold Frontend.parse_into at h
  split at h
  next e2 heq =>
    injection h with h'
    have heq' : P f.id f.source = Except.error e2 := heq
    rw [h'] at heq'
    exact heq'
  next ds rs heq => exact absurd h (by simp)

theorem parse_into_ok_inv (P : ParserFn) (u : TranslationUnit) (f : File)
    (u' : TranslationUnit) (h : (Frontend.new P).parse_into u f = .ok u') :
    ∃ ds rs, P f.id f.source = .ok (ds, rs) ∧
      u'.decls = u.decls ++ ds ∧
      u'.imports = u.imports ++ rs.map (fun r => ⟨r.raw, r.span, none⟩) ∧
      u'.scratch = some f.id := by
  unfold Frontend.parse_into at h
  split at h
  next heq => exact absurd h (by simp)
  next ds rs heq =>
    injection h with h'
    exact ⟨ds, rs, heq, by rw [← h'], by rw [← h'], by rw [← h']⟩

/-- A failing `processImports` always reports `BadPath` with the span the
current file was popped with. -/
theorem processImports_error_badPath (prov : Provider)
    (parent_path : List String) (span : Span) :
    ∀ imps handled stack pe,
      processImports prov parent_path span imps handled stack = .error pe →
      pe = ⟨.badPath span⟩ := by
  intro imps
  induction imps with
  | nil =>
    intro handled stack pe h
    unfold processImports at h
    exact absurd h (by simp)
  | cons d rest ih =>
    intro handled stack pe h
    unfold processImports at h
    by_cases hmem : (d.resolve parent_path).1 ∈ handled
    · rw [if_pos hmem] at h
      split at h
      next e heq =>
        injection h with h'
        exact h' ▸ ih _ _ _ heq
      next ds hs ss heq => exact absurd h (by simp)
    · rw [if_neg hmem] at h
      split at h
      next heq =>
        injection h with h'
        exact h'.symm
      next fid heq =>
        split at h
        next e heq2 =>
          injection h with h'
          exact h' ▸ ih _ _ _ heq2
        next ds hs ss heq2 => exact absurd h (by simp)

/-- Spans surviving `processImports`: every updated directive keeps the span
of one of the incoming directives, and every new stack entry carries a span
of one of the incoming directives. -/
theorem processImports_spans (prov : Provider) (parent_path : List String)
    (span : Span) :
    ∀ imps handled stack imps' handled' stack',
      processImports prov parent_path span imps handled stack =
        .ok (imps', handled', stack') →
      (∀ d' ∈ imps', ∃ d ∈ imps, d'.span = d.span) ∧
      (∀ e ∈ stack', e ∈ stack ∨ ∃ d ∈ imps, e.2 = d.span) := by
  intro imps
  induction imps with
  | nil =>
    intro handled stack imps' handled' stack' h
    unfold processImports at h
    injection h with h
    injection h with h1 h
    injection h with h2 h3
    subst h1; subst h3
    constructor
    · intro d' hd'
      cases hd'
    · intro e he
      exact Or.inl he
  | cons d rest ih =>
    intro handled stack imps' handled' stack' h
    unfold processImports at h
    by_cases hmem : (d.resolve parent_path).1 ∈ handled
    · rw [if_pos hmem] at h
      split at h
      next e heq => exact absurd h (by simp)
      next ds hs ss heq =>
        injection h with h
        injection h with h1 h
        injection h with h2 h3
        subst h1; subst h3
        rcases ih _ _ _ _ _ heq with ⟨hi, hs2⟩
        constructor
        · intro d' hd'
          rcases List.mem_cons.mp hd' with rfl | hd'
          · exact ⟨d, List.mem_cons_self _ _, resolve_preserves_span d parent_path⟩
          · rcases hi d' hd' with ⟨d0, hd0, hsp⟩
            exact ⟨d0, List.mem_cons_of_mem _ hd0, hsp⟩
        · intro e he
          rcases hs2 e he with he | ⟨d0, hd0, hsp⟩
          · exact Or.inl he
          · exact Or.inr ⟨d0, List.mem_cons_of_mem _ hd0, hsp⟩
    · rw [if_neg hmem] at h
      split at h
      next heq => exact absurd h (by simp)
      next fid heq =>
        split at h
        next e heq2 => exact absurd h (by simp)
        next ds hs ss heq2 =>
          injection h with h
          injection h with h1 h
          injection h with h2 h3
          subst h1; subst h3
          rcases ih _ _ _ _ _ heq2 with ⟨hi, hs2⟩
          constructor
          · intro d' hd'
            rcases List.mem_cons.mp hd' with rfl | hd'
            · exact ⟨d, List.mem_cons_self _ _, resolve_preserves_span d parent_path⟩
            · rcases hi d' hd' with ⟨d0, hd0, hsp⟩
              exact ⟨d0, List.mem_cons_of_mem _ hd0, hsp⟩
          · intro e he
            rcases hs2 e he with he | ⟨d0, hd0, hsp⟩
            · rcases List.mem_cons.mp he with rfl | he
              · exact Or.inr ⟨d, List.mem_cons_self _ _,
                  resolve_preserves_span d parent_path⟩
              · exact Or.inl he
            · exact Or.inr ⟨d0, List.mem_cons_of_mem _ hd0, hsp⟩

/-- `sp` is the span of an import directive the parser produced for one of
the provider's files. -/
def parserSpan (prov : Provider) (P : ParserFn) (sp : Span) : Prop :=
  ∃ f, f ∈ prov.files ∧ ∃ ds rs, P f.id f.source = .ok (ds, rs) ∧
    ∃ r, r ∈ rs ∧ r.span = sp

/-- Any `BadPath` span that escapes the loop is either a span already on the
work stack at entry (for `parse_translation_unit`: the synthetic
`Span::new(0, 0, None)`) or the span of an import directive the parser
produced. -/
theorem runLoopF_badPath_spans (prov : Provider) (P : ParserFn)
    (hP : ∀ id src sp2, P id src ≠ .error (.badPath sp2)) :
    ∀ (fuel : Nat) (unit : TranslationUnit) (handled : List (List String))
      (stack : List (FileId × Span)) (trace : List FileId) (r : ResolveRun)
      (sp : Span),
      runLoopF prov P fuel unit handled stack trace = some r →
      r.outcome = .value (.error ⟨.badPath sp⟩) →
      (∀ e ∈ stack, e.2 = Span.new 0 0 none ∨ parserSpan prov P e.2) →
      (∀ d ∈ unit.imports, parserSpan prov P d.span) →
      sp = Span.new 0 0 none ∨ parserSpan prov P sp := by
  intro fuel
  induction fuel with
  | zero =>
    intro unit handled stack trace r sp hr ho hst him
    cases stack with
    | nil =>
      unfold runLoopF at hr
      injection hr with hr
      rw [← hr] at ho
      exact absurd ho (by simp)
    | cons hd tl =>
      unfold runLoopF at hr
      exact absurd hr (by simp)
  | succ fuel ih =>
    intro unit handled stack trace r sp hr ho hst him
    cases stack with
    | nil =>
      unfold runLoopF at hr
      injection hr with hr
      rw [← hr] at ho
      exact absurd ho (by simp)
    | cons hd tl =>
      obtain ⟨file_id, span⟩ := hd
      unfold runLoopF at hr
      split at hr
      next hg =>
        injection hr with hr
        rw [← hr] at ho
        exact absurd ho (by simp)
      next file hg =>
        split at hr
        next e hp =>
          injection hr with hr
          rw [← hr] at ho
          have he : e = .badPath sp :=
            ParseError.mk.inj (Except.error.inj (Panics.value.inj ho))
          have hinv := parse_into_error_inv P unit.reset file e hp
          rw [he] at hinv
          exact absurd hinv (hP file.id file.source sp)
        next unit' hp =>
          split at hr
          next hpp =>
            injection hr with hr
            rw [← hr] at ho
            have h2 : WgslError.badPath span = WgslError.badPath sp :=
              ParseError.mk.inj (Except.error.inj (Panics.value.inj ho))
            have hsp : span = sp := WgslError.badPath.inj h2
            have := hst (file_id, span) (List.mem_cons_self _ _)
            rw [hsp] at this
            exact this
          next parent_path hpp =>
            split at hr
            next pe hpi =>
              injection hr with hr
              rw [← hr] at ho
              have h2 : pe = ⟨.badPath sp⟩ :=
                Except.error.inj (Panics.value.inj ho)
              have h3 := processImports_error_badPath prov parent_path span
                unit'.imports handled tl pe hpi
              rw [h3] at h2
              have hsp : span = sp :=
                WgslError.badPath.inj (ParseError.mk.inj h2)
              have := hst (file_id, span) (List.mem_cons_self _ _)
              rw [hsp] at this
              exact this
            next imps' handled' stack' hpi =>
              rcases parse_into_ok_inv P unit.reset file unit' hp with
                ⟨ds, rs, hPok, hdecls, himp, hscr⟩
              have him' : ∀ d ∈ unit'.imports, parserSpan prov P d.span := by
                intro d hd
                rw [himp] at hd
                rcases List.mem_append.mp hd with hd | hd
                · exact him d hd
                · rcases List.mem_map.mp hd with ⟨rr, hrr, rfl⟩
                  exact ⟨file, List.mem_of_find?_eq_some hg, ds, rs, hPok,
                    rr, hrr, rfl⟩
              rcases processImports_spans prov parent_path span unit'.imports
                handled tl imps' handled' stack' hpi with ⟨himps', hstk'⟩
              refine ih _ handled' stack' _ r sp hr ho ?_ ?_
              · intro e he
                rcases hstk' e he with he | ⟨d0, hd0, hsp⟩
                · exact hst e (List.mem_cons_of_mem _ he)
                · exact Or.inr (hsp ▸ him' d0 hd0)
              · intro d hd
                rcases himps' d hd with ⟨d0, hd0, hsp⟩
                exact hsp ▸ him' d0 hd0

/-- C1 (amended): when import resolution fails (no parent directory, or
`visit` cannot locate the resolved path), `parse_translation_unit` fails
with `BadPath` carrying the span with which the *current* file was entered:
the synthetic `Span::new(0, 0, None)` — with no file identity — when the
failure happens while processing the entry file, and otherwise the span of
the import directive through which the current file was reached, a span the
parser produced inside the importing file and carrying that *importing*
file's identity (for a parser that tags spans with the file it parses). -/
theorem badPath_reports_enqueuing_span (prov : Provider) (P : ParserFn)
    (entry : FileId) (sp : Span)
    (hP : ∀ id src sp2, P id src ≠ .error (.badPath sp2))
    (hTag : ∀ id src ds rs, P id src = .ok (ds, rs) →
      ∀ r ∈ rs, r.span.file_id = some id)
    (h : (parse_translation_unit prov P entry).outcome =
      .value (.error ⟨.badPath sp⟩)) :
    sp = Span.new 0 0 none ∨
    ∃ f, f ∈ prov.files ∧ ∃ ds rs, P f.id f.source = .ok (ds, rs) ∧
      ∃ r, r ∈ rs ∧ r.span = sp ∧ sp.file_id = some f.id := by
  have hb := runLoop_eq_runLoopF prov P
    (loopMeasure prov [] [(entry, Span.new 0 0 none)]) TranslationUnit.default
    [] [(entry, Span.new 0 0 none)] [] (le_refl _)
  have hmain := runLoopF_badPath_spans prov P hP _ TranslationUnit.default []
    [(entry, Span.new 0 0 none)] [] _ sp hb h ?_ ?_
  · rcases hmain with h0 | ⟨f, hf, ds, rs, hok, r, hr, hsp⟩
    · exact Or.inl h0
    · refine Or.inr ⟨f, hf, ds, rs, hok, r, hr, hsp, ?_⟩
      rw [← hsp]
      exact hTag f.id f.source ds rs hok r hr
  · intro e he
    rcases List.mem_singleton.mp he with rfl
    exact Or.inl rfl
  · intro d hd
    cases hd

/-- C1 witness: in the two-file graph where the entry imports `b.wgsl` and
`b.wgsl`'s own import cannot be resolved, the reported span 1..2 is the span
of the `import "b.wgsl"` directive inside the *entry* file
(file identity 0). -/
theorem badPath_reports_enqueuing_span_app :
    Span.new 1 2 (some 0) = Span.new 0 0 none ∨
    ∃ f, f ∈ bad2Provider.files ∧ ∃ ds rs,
      bad2Parser f.id f.source = .ok (ds, rs) ∧
      ∃ r, r ∈ rs ∧ r.span = Span.new 1 2 (some 0) ∧
        (Span.new 1 2 (some 0)).file_id = some f.id := by
  refine badPath_reports_enqueuing_span bad2Provider bad2Parser 0
    (Span.new 1 2 (some 0)) ?_ ?_ ?_
  · intro id src sp2 hcon
    unfold bad2Parser at hcon
    split at hcon <;> simp at hcon
  · intro id src ds rs hok r hr
    unfold bad2Parser at hok
    split at hok
    next hid =>
      injection hok with h'
      injection h' with h1 h2
      subst h2
      rcases List.mem_singleton.mp hr with rfl
      rw [hid]
      rfl
    next hid =>
      injection hok with h'
      injection h' with h1 h2
      subst h2
      rcases List.mem_singleton.mp hr with rfl
      rfl
  · have he := parse_translation_unit_eval bad2Provider bad2Parser 0 5 _
      (by decide) rfl
    rw [he]
    rfl

/-- C1 counterexample: the entry file's unresolvable import yields `BadPath`
whose span is the synthetic `Span::new(0, 0, None)` — not the failing
directive's span 5..9, and with no file identity at all (in particular not
the entry file's). -/
theorem badPath_entry_not_attributed_cex :
    (parse_translation_unit badProvider badParser 0).outcome =
      .value (.error ⟨.badPath (Span.new 0 0 none)⟩) ∧
    (Span.new 0 0 none).file_id ≠ some 0 ∧
    Span.new 0 0 none ≠ Span.new 5 9 (some 0) := by
  have he := parse_translation_unit_eval badProvider badParser 0 3 _
    (by decide) rfl
  rw [he]
  exact ⟨rfl, by decide, by decide⟩

/-! ### Claim C3 (amended): how often can one file be parsed? -/

/-- A well-formed provider registers distinct file identities at distinct
paths. -/
def Provider.wf (prov : Provider) : Prop :=
  (prov.files.map File.id).Nodup ∧ (prov.files.map File.path).Nodup

/-- On a well-formed provider, a successful `visit p` returns the identity
of a registered file whose path is `p`. -/
theorem visit_get_path (prov : Provider) (hwf : prov.wf) (p : List String)
    (fid : FileId) (hv : prov.visit p = some fid) :
    ∃ f, prov.get fid = some f ∧ f.path = p := by
  unfold Provider.visit at hv
  rcases hf0 : prov.files.find? (fun f => f.path == p) with _ | f0
  · rw [hf0] at hv; exact absurd hv (by simp)
  · rw [hf0] at hv
    injection hv with hv
    have hf0mem := List.mem_of_find?_eq_some hf0
    have hf0path : f0.path = p := by simpa using List.find?_some hf0
    rcases hg : prov.files.find? (fun f => f.id == fid) with _ | f1
    · exfalso
      have := List.find?_eq_none.mp hg f0 hf0mem
      rw [← hv] at this
      simp at this
    · have hf1mem := List.mem_of_find?_eq_some hg
      have hf1id : f1.id = fid := by simpa using List.find?_some hg
      have heq : f1 = f0 := by
        have hinj := List.inj_on_of_nodup_map hwf.1
        exact hinj hf1mem hf0mem (by rw [hf1id, ← hv])
      refine ⟨f1, ?_, by rw [heq, hf0path]⟩
      unfold Provider.get
      rw [hg]

/-- Budget of future pushes of `fid`: 1 until the file's path enters the
handled set, 0 afterwards. -/
def pushBudget (prov : Provider) (handled : List (List String))
    (fid : FileId) : Nat :=
  match prov.get fid with
  | none => 1
  | some f => if f.path ∈ handled then 0 else 1

theorem pushBudget_le_one (prov : Provider) (handled : List (List String))
    (fid : FileId) : pushBudget prov handled fid ≤ 1 := by
  unfold pushBudget
  cases prov.get fid with
  | none => exact le_refl _
  | some f => by_cases hm : f.path ∈ handled <;> simp [hm]

theorem pushBudget_mono (prov : Provider)
    (handled handled2 : List (List String)) (fid : FileId)
    (hsub : ∀ p ∈ handled, p ∈ handled2) :
    pushBudget prov handled2 fid ≤ pushBudget prov handled fid := by
  unfold pushBudget
  cases prov.get fid with
  | none => exact le_refl _
  | some f =>
    by_cases hm : f.path ∈ handled
    · simp [hm, hsub _ hm]
    · by_cases hm2 : f.path ∈ handled2 <;> simp [hm, hm2]

/-- On a well-formed provider, the import loop can push a given file id at
most once, and only by spending that id's push budget. -/
theorem processImports_count (prov : Provider) (hwf : prov.wf)
    (parent_path : List String) (span : Span) :
    ∀ imps handled stack imps' handled' stack',
      processImports prov parent_path span imps handled stack =
        .ok (imps', handled', stack') →
      ∀ fid, (stack'.map Prod.fst).count fid + pushBudget prov handled' fid ≤
        (stack.map Prod.fst).count fid + pushBudget prov handled fid := by
  intro imps
  induction imps with
  | nil =>
    intro handled stack imps' handled' stack' h fid
    unfold processImports at h
    injection h with h
    injection h with h1 h
    injection h with h2 h3
    subst h2; subst h3
    exact le_refl _
  | cons d rest ih =>
    intro handled stack imps' handled' stack' h fid
    unfold processImports at h
    by_cases hmem : (d.resolve parent_path).1 ∈ handled
    · rw [if_pos hmem] at h
      split at h
      next e heq => exact absurd h (by simp)
      next ds hs ss heq =>
        injection h with h
        injection h with h1 h
        injection h with h2 h3
        subst h2; subst h3
        exact ih _ _ _ _ _ heq fid
    · rw [if_neg hmem] at h
      split at h
      next heq => exact absurd h (by simp)
      next pfid heq =>
        split at h
        next e heq2 => exact absurd h (by simp)
        next ds hs ss heq2 =>
          injection h with h
          injection h with h1 h
          injection h with h2 h3
          subst h2; subst h3
          refine le_trans (ih _ _ _ _ _ heq2 fid) ?_
          simp only [List.map_cons, List.count_cons]
          by_cases hfe : pfid = fid
          · subst hfe
            rcases visit_get_path prov hwf _ _ heq with ⟨f, hget, hpath⟩
            have hb1 : pushBudget prov handled pfid = 1 := by
              simp only [pushBudget, hget]
              rw [if_neg (hpath ▸ hmem)]
            have hb0 : pushBudget prov
                ((d.resolve parent_path).1 :: handled) pfid = 0 := by
              simp only [pushBudget, hget]
              rw [if_pos (by rw [hpath]; exact List.mem_cons_self _ _)]
            rw [hb0, hb1]
            simp
          · have hb := pushBudget_mono prov handled
              ((d.resolve parent_path).1 :: handled) fid
              (fun p hp => List.mem_cons_of_mem _ hp)
            simp [hfe]
            omega

/-- Along the whole loop, the number of times `fid` is handed to the parser
is bounded by its occurrences already in the trace, its occurrences on the
work stack, and one extra push budget. -/
theorem runLoopF_trace_count (prov : Provider) (P : ParserFn) (hwf : prov.wf) :
    ∀ (fuel : Nat) (unit : TranslationUnit) (handled : List (List String))
      (stack : List (FileId × Span)) (trace : List FileId) (r : ResolveRun)
      (fid : FileId),
      runLoopF prov P fuel unit handled stack trace = some r →
      r.trace.count fid ≤
        trace.count fid + (stack.map Prod.fst).count fid +
          pushBudget prov handled fid := by
  intro fuel
  induction fuel with
  | zero =>
    intro unit handled stack trace r fid hr
    cases stack with
    | nil =>
      unfold runLoopF at hr
      injection hr with hr
      rw [← hr]
      simp
    | cons hd tl =>
      unfold runLoopF at hr
      exact absurd hr (by simp)
  | succ fuel ih =>
    intro unit handled stack trace r fid hr
    cases stack with
    | nil =>
      unfold runLoopF at hr
      injection hr with hr
      rw [← hr]
      simp
    | cons hd tl =>
      obtain ⟨file_id, span⟩ := hd
      unfold runLoopF at hr
      split at hr
      next hg =>
        injection hr with hr
        rw [← hr]
        simp only [List.map_cons, List.count_cons]
        omega
      next file hg =>
        have harith : ∀ t : List FileId,
            (t ++ [file_id]).count fid ≤
              t.count fid + (((file_id, span) :: tl).map Prod.fst).count fid +
                pushBudget prov handled fid := by
          intro t
          simp only [List.count_append, List.map_cons, List.count_cons]
          by_cases hfe : file_id = fid <;> simp [hfe, List.count_nil] <;> omega
        split at hr
        next e hp =>
          injection hr with hr
          rw [← hr]
          exact harith trace
        next unit' hp =>
          split at hr
          next hpp =>
            injection hr with hr
            rw [← hr]
            exact harith trace
          next parent_path hpp =>
            split at hr
            next pe hpi =>
              injection hr with hr
              rw [← hr]
              exact harith trace
            next imps' handled' stack' hpi =>
              have h1 := ih _ handled' stack' _ r fid hr
              have h2 := processImports_count prov hwf parent_path span
                unit'.imports handled tl imps' handled' stack' hpi fid
              simp only [List.count_append, List.map_cons,
                List.count_cons] at h1 ⊢
              by_cases hfe : file_id = fid <;> simp [hfe] at h1 ⊢ <;> omega

/-- C3 (amended): in one `parse_translation_unit` call on a well-formed
provider (distinct file ids, distinct paths), every file other than the
entry is parsed at most once; the entry file itself is parsed at most twice
— a second time exactly when the import graph cycles back to the entry's
path, which is never pre-inserted into the visited set. -/
theorem parse_at_most_once_amended (prov : Provider) (P : ParserFn)
    (entry : FileId) (hwf : prov.wf) (fid : FileId) :
    ((parse_translation_unit prov P entry).trace.count entry ≤ 2) ∧
    (fid ≠ entry →
      (parse_translation_unit prov P entry).trace.count fid ≤ 1) := by
  have hb := runLoop_eq_runLoopF prov P
    (loopMeasure prov [] [(entry, Span.new 0 0 none)]) TranslationUnit.default
    [] [(entry, Span.new 0 0 none)] [] (le_refl _)
  have hpt : parse_translation_unit prov P entry =
      runLoop prov P TranslationUnit.default []
        [(entry, Span.new 0 0 none)] [] := rfl
  constructor
  · have h := runLoopF_trace_count prov P hwf _ TranslationUnit.default []
      [(entry, Span.new 0 0 none)] [] _ entry hb
    have hbud := pushBudget_le_one prov [] entry
    rw [hpt]
    simp only [List.count_nil, List.map_cons, List.map_nil,
      List.count_cons] at h
    simp at h
    omega
  · intro hne
    have h := runLoopF_trace_count prov P hwf _ TranslationUnit.default []
      [(entry, Span.new 0 0 none)] [] _ fid hb
    have hbud := pushBudget_le_one prov [] fid
    rw [hpt]
    simp only [List.count_nil, List.map_cons, List.map_nil,
      List.count_cons] at h
    simp [Ne.symm hne] at h
    omega

/-- C3 witness: the amended bound applied to the cyclic pair — the entry is
parsed at most twice (it is parsed exactly twice there), the other file at
most once. -/
theorem parse_at_most_once_amended_app :
    (parse_translation_unit cycProvider cycParser 0).trace.count 0 ≤ 2 ∧
    (parse_translation_unit cycProvider cycParser 0).trace.count 1 ≤ 1 := by
  refine ⟨(parse_at_most_once_amended cycProvider cycParser 0 ⟨by decide, by decide⟩ 0).1, ?_⟩
  exact (parse_at_most_once_amended cycProvider cycParser 0
    ⟨by decide, by decide⟩ 1).2 (by decide)

/-! ### Claim C8: LIFO processing order and merge order -/

/-- The declarations the parser contributes for file `fid` (empty when the
file is unknown or fails to parse), as `parse_into` appends them. -/
def fileDecls (prov : Provider) (P : ParserFn) (fid : FileId) : List Decl :=
  match prov.get fid with
  | none => []
  | some f =>
    match P f.id f.source with
    | .ok (ds, _) => ds
    | .error _ => []

/-- Declarations are folded into the merged unit exactly in trace order:
a successful run appends, for each file in the order it was popped and
parsed, that file's declarations. -/
theorem runLoopF_decls_fold (prov : Provider) (P : ParserFn) :
    ∀ (fuel : Nat) (unit : TranslationUnit) (handled : List (List String))
      (stack : List (FileId × Span)) (trace : List FileId)
      (u' : TranslationUnit) (tr : List FileId),
      runLoopF prov P fuel unit handled stack trace =
        some ⟨.value (.ok u'), tr⟩ →
      ∃ suffix, tr = trace ++ suffix ∧
        u'.decls = unit.decls ++ (suffix.map (fileDecls prov P)).flatten := by
  intro fuel
  induction fuel with
  | zero =>
    intro unit handled stack trace u' tr hr
    cases stack with
    | nil =>
      unfold runLoopF at hr
      injection hr with hr
      injection hr with h1 h2
      refine ⟨[], by rw [← h2]; simp, ?_⟩
      have h3 := Except.ok.inj (Panics.value.inj h1)
      rw [← h3]
      simp
    | cons hd tl =>
      unfold runLoopF at hr
      exact absurd hr (by simp)
  | succ fuel ih =>
    intro unit handled stack trace u' tr hr
    cases stack with
    | nil =>
      unfold runLoopF at hr
      injection hr with hr
      injection hr with h1 h2
      refine ⟨[], by rw [← h2]; simp, ?_⟩
      have h3 := Except.ok.inj (Panics.value.inj h1)
      rw [← h3]
      simp
    | cons hd tl =>
      obtain ⟨file_id, span⟩ := hd
      unfold runLoopF at hr
      split at hr
      next hg => simp at hr
      next file hg =>
        split at hr
        next e hp => simp at hr
        next unit' hp =>
          split at hr
          next hpp => simp at hr
          next parent_path hpp =>
            split at hr
            next pe hpi => simp at hr
            next imps' handled' stack' hpi =>
              rcases ih _ handled' stack' _ u' tr hr with ⟨suffix, htr, hdecls⟩
              rcases parse_into_ok_inv P unit.reset file unit' hp with
                ⟨ds, rs, hPok, hds, himp, hscr⟩
              refine ⟨file_id :: suffix, by rw [htr]; simp, ?_⟩
              have hfd : fileDecls prov P file_id = ds := by
                simp only [fileDecls, hg, hPok]
              rw [hdecls]
              show unit'.decls ++ _ = _
              rw [hds]
              show unit.decls ++ ds ++ _ = _
              rw [List.map_cons, List.flatten_cons, hfd, List.append_assoc]

/-- Entry `main.wgsl` (id 0) imports `s1.wgsl`, `s2.wgsl`, `s3.wgsl`
(ids 1, 2, 3), which have no imports of their own. -/
def sibProvider : Provider :=
  ⟨[File.new 0 ["main.wgsl"] "m".toList, File.new 1 ["s1.wgsl"] "1".toList,
    File.new 2 ["s2.wgsl"] "2".toList, File.new 3 ["s3.wgsl"] "3".toList]⟩

/-- Parser for `sibProvider`: the entry declares `d0` and its three imports
appear in declaration order s1, s2, s3; each sibling declares `d<i>`. -/
def sibParser : ParserFn := fun id _src =>
  if id = 0 then
    .ok (["d0"], [⟨"s1.wgsl", Span.new 1 2 (some 0)⟩,
      ⟨"s2.wgsl", Span.new 3 4 (some 0)⟩, ⟨"s3.wgsl", Span.new 5 6 (some 0)⟩])
  else if id = 1 then .ok (["d1"], [])
  else if id = 2 then .ok (["d2"], [])
  else .ok (["d3"], [])

/-- C8: processing is stack-based and this order fixes the merge: (general
part) a successful `parse_translation_unit` produces a merged unit whose
declarations are exactly the concatenation, in trace order, of each parsed
file's declarations; (concrete part) with three sibling imports declared in
order s1, s2, s3, the trace is `[entry, s3, s2, s1]` — siblings are visited
in reverse declaration order, because the loop pushes fresh imports in
declaration order and pops last-in-first-out — and the merged declarations
are `[d0, d3, d2, d1]` in that same order. -/
theorem lifo_order_determines_merge :
    (∀ (prov : Provider) (P : ParserFn) (entry : FileId)
      (u : TranslationUnit) (tr : List FileId),
      parse_translation_unit prov P entry = ⟨.value (.ok u), tr⟩ →
      u.decls = (tr.map (fileDecls prov P)).flatten) ∧
    ((parse_translation_unit sibProvider sibParser 0).trace = [0, 3, 2, 1] ∧
      ∀ u, (parse_translation_unit sibProvider sibParser 0).outcome =
          .value (.ok u) → u.decls = ["d0", "d3", "d2", "d1"]) := by
  constructor
  · intro prov P entry u tr h
    have h' : runLoop prov P TranslationUnit.default []
        [(entry, Span.new 0 0 none)] [] = ⟨.value (.ok u), tr⟩ := h
    have hb := runLoop_eq_runLoopF prov P
      (loopMeasure prov [] [(entry, Span.new 0 0 none)])
      TranslationUnit.default [] [(entry, Span.new 0 0 none)] [] (le_refl _)
    rw [h'] at hb
    rcases runLoopF_decls_fold prov P _ _ _ _ _ u tr hb with ⟨suffix, htr, hdecls⟩
    rw [hdecls, htr]
    simp [TranslationUnit.default]
  · have he := parse_translation_unit_eval sibProvider sibParser 0 9 _
      (by decide) rfl
    rw [he]
    refine ⟨rfl, ?_⟩
    intro u hu
    have h := Except.ok.inj (Panics.value.inj hu.symm)
    rw [h]
    rfl

/-- C8 witness: the general fold-order statement applied to the concrete
sibling graph. -/
theorem lifo_order_determines_merge_app :
    ∃ u, parse_translation_unit sibProvider sibParser 0 =
        ⟨.value (.ok u), [0, 3, 2, 1]⟩ ∧
      u.decls = ([0, 3, 2, 1].map (fileDecls sibProvider sibParser)).flatten := by
  have he := parse_translation_unit_eval sibProvider sibParser 0 9 _
    (by decide) rfl
  have h2 : ∃ u, parse_translation_unit sibProvider sibParser 0 =
      ⟨.value (.ok u), [0, 3, 2, 1]⟩ := by
    rw [he]
    exact ⟨_, rfl⟩
  rcases h2 with ⟨u, hu⟩
  exact ⟨u, hu, lifo_order_determines_merge.1 sibProvider sibParser 0 u _ hu⟩

/-! ### Claims C9 and C10: the pipeline entry points -/

/-- One trivially parseable file with no imports. -/
def okProvider : Provider := ⟨[File.new 0 ["ok.wgsl"] "k".toList]⟩

/-- Parser for `okProvider`: one declaration, no imports, never fails. -/
def okParser : ParserFn := fun _id _src => .ok (["dk"], [])

/-- A pipeline whose Index generation and Lowering always succeed. -/
def okPipeline : Pipeline :=
  ⟨fun _u => .ok "index0", fun _ix _u => .ok "module0"⟩

/-- C9: `parse_module` resolves and parses the merged unit, then runs Index
generation, then Lowering with the generated index; the Module is returned
on success, and a failure of any stage is propagated as a `ParseError`
(internal errors via `as_parse_error`) with no Module produced. -/
theorem parse_module_stage_order (prov : Provider) (P : ParserFn)
    (pl : Pipeline) (id : FileId) :
    (∀ u tr, parse_translation_unit prov P id = ⟨.value (.ok u), tr⟩ →
      (∀ ix m, pl.generate u = .ok ix → pl.lower ix u = .ok m →
        parse_module prov P pl id = .value (.ok m)) ∧
      (∀ e, pl.generate u = .error e →
        parse_module prov P pl id = .value (.error (e.as_parse_error prov))) ∧
      (∀ ix e, pl.generate u = .ok ix → pl.lower ix u = .error e →
        parse_module prov P pl id = .value (.error (e.as_parse_error prov)))) ∧
    (∀ e tr, parse_translation_unit prov P id = ⟨.value (.error e), tr⟩ →
      parse_module prov P pl id = .value (.error e)) := by
  constructor
  · intro u tr h
    refine ⟨?_, ?_, ?_⟩
    · intro ix m hg hl
      simp only [parse_module, h, lower, hg, hl]
    · intro e hg
      simp only [parse_module, h, lower, hg]
    · intro ix e hg hl
      simp only [parse_module, h, lower, hg, hl]
  · intro e tr h
    simp only [parse_module, h]

/-- C9 witness: on the one-file graph with an always-succeeding pipeline,
`parse_module` returns the lowered module. -/
theorem parse_module_stage_order_app :
    parse_module okProvider okParser okPipeline 0 = .value (.ok "module0") := by
  have he := parse_translation_unit_eval okProvider okParser 0 3 _
    (by decide) rfl
  have h2 : ∃ u, parse_translation_unit okProvider okParser 0 =
      ⟨.value (.ok u), [0]⟩ := by
    rw [he]
    exact ⟨_, rfl⟩
  rcases h2 with ⟨u, hu⟩
  exact ((parse_module_stage_order okProvider okParser okPipeline 0).1 u [0]
    hu).1 "index0" "module0" rfl rfl

/-- C10: the public entry points `Frontend::parse` and `parse_str` are
unimplemented `todo!()` stubs — they panic on every input — while
`parse_module` is a functioning string-to-Module entry point: a concrete
provider, parser and pipeline yield a module through it. -/
theorem stubs_panic_parse_module_functions :
    (∀ (fe : Frontend) (source : List Char), fe.parse source = .panicked) ∧
    (∀ source : List Char, parse_str source = .panicked) ∧
    (∃ (prov : Provider) (P : ParserFn) (pl : Pipeline) (id : FileId)
      (m : Module), parse_module prov P pl id = .value (.ok m)) := by
  refine ⟨fun _ _ => rfl, fun _ => rfl,
    okProvider, okParser, okPipeline, 0, "module0", ?_⟩
  have he := parse_translation_unit_eval okProvider okParser 0 3 _
    (by decide) rfl
  unfold parse_module
  rw [he]
  rfl

end Wgslx
